import Mathlib

/-!
Shallow embedding of the timer-adapter add-on (`src/unnamed/part_002`).

The add-on exposes three device state machines:
* `Timer` — a countdown timer with `seconds` / `running` / `elapsed`
  properties and `start` / `restart` / `reset` actions, driven by a
  repeating 1-second tick (`setInterval`);
* `PrecisionTimer` — a one-shot delayed `elapsed` event (`setTimeout`);
* `Interval` — a free-running counter ticking every second, emitting an
  `elapsed` event once per period;
plus the `TimerAdapter.load` routine which assigns fresh random
identifiers to configuration entries lacking one and persists the
augmented configuration.

Every call to `setCachedValueAndNotify` publishes the new property value
to the host; we record these publishes as an explicit trace.  Time is
modelled at the source's 1-second tick granularity: one `step` of a
device is what its scheduled callback does when one second elapses.
-/

/-- A property publish delivered to the host
(`Property.setCachedValueAndNotify` in the source).  The countdown timer
has three properties: `running`, `elapsed` (title of `finishedProperty`)
and `seconds`. -/
inductive Pub where
  | running (value : Bool)
  | elapsed (value : Bool)
  | seconds (value : Nat)
deriving DecidableEq, Repr

/-- State of a countdown `Timer` device: the `seconds` field, the cached
values of the `running` and `elapsed` properties, and whether the
`setInterval` handle `timerHandle` is set. -/
structure TimerState where
  seconds : Nat
  running : Bool
  elapsed : Bool
  timerHandle : Bool
deriving DecidableEq, Repr

namespace Timer

/-- The state a `Timer` device is created in: `seconds = 0`, both boolean
properties `false`, no tick scheduled. -/
def initState : TimerState :=
  { seconds := 0, running := false, elapsed := false, timerHandle := false }

/-- `Timer.start`: if no `timerHandle` is set, publish `running = true`
and schedule the repeating 1-second tick; otherwise do nothing. -/
def start (s : TimerState) : TimerState × List Pub :=
  if s.timerHandle then (s, [])
  else ({ s with running := true, timerHandle := true }, [Pub.running true])

/-- `Timer.finish`: clear the tick handle (if present), publish
`running = false` then `elapsed = true`. -/
def finish (s : TimerState) : TimerState × List Pub :=
  ({ s with timerHandle := false, running := false, elapsed := true },
   [Pub.running false, Pub.elapsed true])

/-- `Timer.tick` for a timer configured with `cfg` seconds: increment and
publish `seconds`; if the new value equals `cfg`, run `finish`. -/
def tick (cfg : Nat) (s : TimerState) : TimerState × List Pub :=
  let s1 := { s with seconds := s.seconds + 1 }
  if s1.seconds = cfg then
    let r := finish s1
    (r.1, Pub.seconds s1.seconds :: r.2)
  else (s1, [Pub.seconds s1.seconds])

/-- `Timer.reset`: cancel the tick handle if present, then publish
`running = false`, `elapsed = false`, `seconds = 0` unconditionally. -/
def reset (s : TimerState) : TimerState × List Pub :=
  ({ s with timerHandle := false, running := false, elapsed := false, seconds := 0 },
   [Pub.running false, Pub.elapsed false, Pub.seconds 0])

/-- `Timer.restart`: `reset` followed by `start`. -/
def restart (s : TimerState) : TimerState × List Pub :=
  let r1 := reset s
  let r2 := start r1.1
  (r2.1, r1.2 ++ r2.2)

/-- One second of real time: the scheduled tick fires iff the
`setInterval` handle is set; otherwise nothing happens. -/
def step (cfg : Nat) (s : TimerState) : TimerState × List Pub :=
  if s.timerHandle then tick cfg s else (s, [])

/-- `n` seconds of real time, concatenating the publish traces. -/
def advance (cfg : Nat) : Nat → TimerState → TimerState × List Pub
  | 0, s => (s, [])
  | n + 1, s =>
      let r1 := step cfg s
      let r2 := advance cfg n r1.1
      (r2.1, r1.2 ++ r2.2)

end Timer

namespace Interval

/-- `Interval.tick` for an interval configured with `period` seconds:
increment the counter, emit the `elapsed` event iff the incremented
value equals the period, wrap to 1 iff it exceeds the period, and
publish the resulting (possibly wrapped) counter value.  Returns the new
counter (the published value) and whether the event was emitted. -/
def tick (period : Nat) (v : Nat) : Nat × Bool :=
  let v1 := v + 1
  let emit := v1 == period
  let v2 := if period < v1 then 1 else v1
  (v2, emit)

/-- The interval's counter after `n` ticks; the source initializes
`seconds` to 1 at construction time. -/
def counter (period : Nat) : Nat → Nat
  | 0 => 1
  | n + 1 => (tick period (counter period n)).1

/-- Whether tick number `n + 1` (the one taking the counter from
`counter period n` to `counter period (n + 1)`) emits `elapsed`. -/
def emitted (period : Nat) (n : Nat) : Bool :=
  (tick period (counter period n)).2

end Interval

namespace PrecisionTimer

/-- State of a `PrecisionTimer`: `some k` when a `setTimeout` completion
is pending and will fire after `k` more seconds, `none` when idle.  The
device has no properties, so nothing is ever published. -/
def start (cfg : Nat) (s : Option Nat) : Option Nat :=
  match s with
  | some k => some k
  | none => some cfg

/-- One second of real time: a pending completion counts down; on
reaching its deadline it fires the `elapsed` event (second component:
number of events emitted this second) and clears the handle. -/
def step : Option Nat → Option Nat × Nat
  | none => (none, 0)
  | some k => if k ≤ 1 then (none, 1) else (some (k - 1), 0)

/-- `n` seconds of real time, accumulating the emitted event count. -/
def advance : Nat → Option Nat → Option Nat × Nat
  | 0, s => (s, 0)
  | n + 1, s =>
      let r1 := step s
      let r2 := advance n r1.1
      (r2.1, r1.2 + r2.2)

end PrecisionTimer

/-- What a `performAction` call reports back to the host: `action.start()`
is called on entry, `action.finish()` on exit, and a warning is logged
iff the action name had no registered callback. -/
structure ActionReport where
  started : Bool
  finished : Bool
  warned : Bool
deriving DecidableEq, Repr

namespace Timer

/-- The callback table the `Timer` constructor registers via
`addCallbackAction`: `start`, `restart` and `reset`. -/
def callbacks (name : String) : Option (TimerState → TimerState × List Pub) :=
  if name = "start" then some start
  else if name = "restart" then some restart
  else if name = "reset" then some reset
  else none

/-- `Timer.performAction`: call `action.start()`, look up the named
callback and either run it or log an unknown-action warning, then call
`action.finish()`.  Every path reports both start and finish. -/
def performAction (name : String) (s : TimerState) :
    TimerState × List Pub × ActionReport :=
  match callbacks name with
  | some cb =>
      let r := cb s
      (r.1, r.2, { started := true, finished := true, warned := false })
  | none => (s, [], { started := true, finished := true, warned := true })

end Timer

/-- A timer / precision-timer / interval configuration entry
(`TimerConfig` / `IntervalConfig` in the source).  A missing `id` in the
stored JSON is modelled as the empty string, which is exactly what the
source's falsy check `if (!timer.id)` treats as absent. -/
structure DeviceConfig where
  id : String
  name : String
  seconds : Nat
deriving DecidableEq, Repr

/-- The add-on configuration document as loaded from the host database:
three entry lists plus the progress-bar switch.  An absent list is
modelled as the empty list (the source skips absent lists, which
processes no entries, exactly like processing an empty list). -/
structure AdapterConfig where
  timers : List DeviceConfig
  precisionTimers : List DeviceConfig
  intervals : List DeviceConfig
  deactivateProgressBar : Bool
deriving DecidableEq, Repr

namespace TimerAdapter

/-- One pass of `TimerAdapter.load` over one configuration list: an
entry whose `id` is missing receives the next value drawn from `supply`.
Each call to `crypto.randomBytes(16).toString('hex')` is modelled as
drawing the next element of a pre-drawn supply of identifier strings;
the second component is the supply left for later draws. -/
def assignIds : List DeviceConfig → List String → List DeviceConfig × List String
  | [], supply => ([], supply)
  | c :: cs, supply =>
      if c.id = "" then
        let r := assignIds cs supply.tail
        ({ c with id := supply.headD "" } :: r.1, r.2)
      else
        let r := assignIds cs supply
        (c :: r.1, r.2)

/-- `TimerAdapter.load`: assign identifiers to the three configuration
lists in source order (timers, then precision timers, then intervals)
drawing from one shared random supply, and return the augmented
configuration — the value the source passes to `db.saveConfig`. -/
def load (config : AdapterConfig) (supply : List String) : AdapterConfig :=
  let rt := assignIds config.timers supply
  let rp := assignIds config.precisionTimers rt.2
  let ri := assignIds config.intervals rp.2
  { config with timers := rt.1, precisionTimers := rp.1, intervals := ri.1 }

/-- The identifiers of a configuration list, in order. -/
def ids (l : List DeviceConfig) : List String := l.map (fun c => c.id)

/-- How many entries of the list are missing their identifier. -/
def blanks : List DeviceConfig → Nat
  | [] => 0
  | c :: cs => (if c.id = "" then 1 else 0) + blanks cs

/-- The identifiers already present (non-empty) in a configuration
list, in order. -/
def nonemptyIds : List DeviceConfig → List String
  | [] => []
  | c :: cs => if c.id = "" then nonemptyIds cs else c.id :: nonemptyIds cs

/-- All identifiers of the configuration, in registration order. -/
def allIds (c : AdapterConfig) : List String :=
  ids c.timers ++ ids c.precisionTimers ++ ids c.intervals

/-- All identifiers already present in the configuration. -/
def allNonemptyIds (c : AdapterConfig) : List String :=
  nonemptyIds c.timers ++ nonemptyIds c.precisionTimers ++ nonemptyIds c.intervals

/-- Total number of entries missing their identifier. -/
def totalBlanks (c : AdapterConfig) : Nat :=
  blanks c.timers + blanks c.precisionTimers + blanks c.intervals

end TimerAdapter

namespace Timer

theorem advance_add (cfg m n : Nat) (s : TimerState) :
    advance cfg (m + n) s =
      ((advance cfg n (advance cfg m s).1).1,
       (advance cfg m s).2 ++ (advance cfg n (advance cfg m s).1).2) := by
  induction m generalizing s with
  | zero => simp [advance]
  | succ m ih =>
      have : m + 1 + n = (m + n) + 1 := by omega
      rw [this]
      simp only [advance, ih]
      simp

/-- While the countdown is strictly below the configured limit, each
second increments `seconds` by one, publishes only the new value, and
keeps the timer running. -/
theorem advance_below (cfg k j : Nat) (h : j + k < cfg) :
    advance cfg k { seconds := j, running := true, elapsed := false, timerHandle := true } =
      ({ seconds := j + k, running := true, elapsed := false, timerHandle := true },
       (List.range k).map (fun i => Pub.seconds (j + i + 1))) := by
  induction k generalizing j with
  | zero => simp [advance]
  | succ k ih =>
      have hj : j + 1 ≠ cfg := by omega
      have hrec := ih (j + 1) (by omega)
      simp only [advance, step, tick, hj, if_true, if_false, hrec]
      simp only [List.range_succ_eq_map, List.map_cons, List.map_map, Prod.mk.injEq,
        TimerState.mk.injEq, List.singleton_append, List.cons_append, List.nil_append,
        and_true, true_and]
      refine ⟨by omega, ?_⟩
      have h0 : j + 0 + 1 = j + 1 := by omega
      rw [h0]
      congr 1
      apply List.map_congr_left
      intro i _
      simp only [Function.comp_apply]
      congr 1
      omega

end Timer

/-- C1: for a countdown timer configured with period `S ≥ 1`, from the
initial state, `start()` followed by `S` seconds of ticks ends with
`seconds = S`, `running = false`, `elapsed = true`, no handle, and the
publish trace is `running = true`, then `seconds = 1, …, S` one per tick,
with `running = false` and `elapsed = true` published on the final tick. -/
theorem countdown_start_run_to_elapsed (S : Nat) (hS : 1 ≤ S) :
    (Timer.start Timer.initState).2 = [Pub.running true] ∧
    Timer.advance S S (Timer.start Timer.initState).1 =
      ({ seconds := S, running := false, elapsed := true, timerHandle := false },
       ((List.range S).map (fun i => Pub.seconds (i + 1))) ++
         [Pub.running false, Pub.elapsed true]) := by
  obtain ⟨T, rfl⟩ : ∃ T, S = T + 1 := ⟨S - 1, by omega⟩
  constructor
  · simp [Timer.start, Timer.initState]
  · have hstart : (Timer.start Timer.initState).1 =
        { seconds := 0, running := true, elapsed := false, timerHandle := true } := by
      simp [Timer.start, Timer.initState]
    rw [hstart, Timer.advance_add (T + 1) T 1]
    have hbelow := Timer.advance_below (T + 1) T 0 (by omega)
    simp only [Nat.zero_add] at hbelow
    rw [hbelow]
    have hlast : Timer.advance (T + 1) 1
        { seconds := T, running := true, elapsed := false, timerHandle := true } =
        ({ seconds := T + 1, running := false, elapsed := true, timerHandle := false },
         [Pub.seconds (T + 1), Pub.running false, Pub.elapsed true]) := by
      simp [Timer.advance, Timer.step, Timer.tick, Timer.finish]
    rw [hlast]
    simp [List.range_succ]

/-- C1 witness: the tea-timer scenario with `S = 3`. -/
theorem countdown_start_run_to_elapsed_witness :
    (Timer.start Timer.initState).2 = [Pub.running true] ∧
    Timer.advance 3 3 (Timer.start Timer.initState).1 =
      ({ seconds := 3, running := false, elapsed := true, timerHandle := false },
       ((List.range 3).map (fun i => Pub.seconds (i + 1))) ++
         [Pub.running false, Pub.elapsed true]) :=
  countdown_start_run_to_elapsed 3 (by decide)

namespace Timer

/-- With no `setInterval` handle set, the passage of time does nothing:
no state change and no property publishes. -/
theorem advance_no_handle (cfg n : Nat) (s : TimerState)
    (h : s.timerHandle = false) : advance cfg n s = (s, []) := by
  induction n with
  | zero => rfl
  | succ n ih => simp [advance, step, h, ih]

/-- While the timer is in the runaway started-after-elapsed mode
(`elapsed = true`, handle set), every second just increments and
publishes `seconds`: the finish branch is never taken once `seconds` is
at or above the configured limit. -/
theorem advance_runaway (cfg n j : Nat) (h : cfg ≤ j) :
    advance cfg n { seconds := j, running := true, elapsed := true, timerHandle := true } =
      ({ seconds := j + n, running := true, elapsed := true, timerHandle := true },
       (List.range n).map (fun i => Pub.seconds (j + i + 1))) := by
  induction n generalizing j with
  | zero => simp [advance]
  | succ n ih =>
      have hj : j + 1 ≠ cfg := by omega
      have hrec := ih (j + 1) (by omega)
      simp only [advance, step, tick, hj, if_true, if_false, hrec]
      simp only [List.range_succ_eq_map, List.map_cons, List.map_map, Prod.mk.injEq,
        TimerState.mk.injEq, List.singleton_append, List.cons_append, List.nil_append,
        and_true, true_and]
      refine ⟨by omega, ?_⟩
      have h0 : j + 0 + 1 = j + 1 := by omega
      rw [h0]
      congr 1
      apply List.map_congr_left
      intro i _
      simp only [Function.comp_apply]
      congr 1
      omega

end Timer

/-- C2: `reset()` from any state (re-)publishes `running = false`,
`elapsed = false`, `seconds = 0`, lands in the zeroed state with the
tick handle cancelled, and any subsequent passage of time produces no
state change and no further property publishes. -/
theorem reset_zeroes_and_quiesces (cfg n : Nat) (s : TimerState) :
    Timer.reset s =
      ({ seconds := 0, running := false, elapsed := false, timerHandle := false },
       [Pub.running false, Pub.elapsed false, Pub.seconds 0]) ∧
    Timer.advance cfg n (Timer.reset s).1 = ((Timer.reset s).1, []) := by
  refine ⟨rfl, ?_⟩
  exact Timer.advance_no_handle cfg n _ rfl

/-- C8: a second `start()` with no intervening `reset` is a no-op: the
state is unchanged and nothing is published (in particular no second
tick handle and no duplicate `running = true` publish). -/
theorem start_idempotent (s : TimerState) :
    Timer.start (Timer.start s).1 = ((Timer.start s).1, []) := by
  by_cases h : s.timerHandle <;> simp [Timer.start, h]

/-- C3 is violated by the code: from the initial state of a timer
configured with 1 second, the action sequence `start`, one tick,
`start`, one tick reaches a state with `elapsed = true` and
`running = true` (contradicting `elapsed → ¬running`) and with
`seconds = 2`, outside the declared range `[0, config.seconds] = [0, 1]`
(the source itself declares the property with `maximum: timer.seconds`). -/
theorem timer_invariant_breach :
    (Timer.advance 1 1 (Timer.start
        (Timer.advance 1 1 (Timer.start Timer.initState).1).1).1).1 =
      { seconds := 2, running := true, elapsed := true, timerHandle := true } := by
  decide

/-- C10: from the elapsed state (`elapsed = true`, no handle,
`seconds = S` for a timer configured with `S`), `start()` without a
prior `reset()` sets `running = true` while leaving `elapsed = true`,
and after any `n ≥ 1` further seconds the finish transition has never
fired again: `seconds = S + n` exceeds the configured limit, the timer
is still running and the tick handle is still set. -/
theorem start_after_elapsed_runs_forever (S n : Nat) (s : TimerState)
    (hel : s.elapsed = true) (hh : s.timerHandle = false) (hsec : s.seconds = S)
    (hn : 1 ≤ n) :
    (Timer.start s).1 =
      { seconds := S, running := true, elapsed := true, timerHandle := true } ∧
    (Timer.advance S n (Timer.start s).1).1 =
      { seconds := S + n, running := true, elapsed := true, timerHandle := true } ∧
    S < S + n := by
  have hstart : (Timer.start s).1 =
      { seconds := S, running := true, elapsed := true, timerHandle := true } := by
    obtain ⟨sec, run, ela, hd⟩ := s
    simp only at hel hh hsec
    simp [Timer.start, hh, hsec, hel]
  refine ⟨hstart, ?_, by omega⟩
  rw [hstart, Timer.advance_runaway S n S (le_refl S)]

/-- C10 witness: a 1-second timer that elapsed, was started again
without a reset, and then ran for 2 more seconds. -/
theorem start_after_elapsed_runs_forever_witness :
    (Timer.start ⟨1, false, true, false⟩).1 =
      { seconds := 1, running := true, elapsed := true, timerHandle := true } ∧
    (Timer.advance 1 2 (Timer.start ⟨1, false, true, false⟩).1).1 =
      { seconds := 1 + 2, running := true, elapsed := true, timerHandle := true } ∧
    1 < 1 + 2 :=
  start_after_elapsed_runs_forever 1 2 ⟨1, false, true, false⟩ rfl rfl rfl (by decide)

namespace Interval

theorem counter_eq_mod (P : Nat) (hP : 2 ≤ P) : ∀ n, counter P n = n % P + 1 := by
  intro n
  induction n with
  | zero => simp [counter]
  | succ n ih =>
      have hlt : n % P < P := Nat.mod_lt n (by omega)
      have hmod : (n + 1) % P = (n % P + 1) % P := by
        conv_lhs => rw [Nat.add_mod]
        rw [Nat.mod_eq_of_lt (show 1 < P by omega)]
      have hstep : counter P (n + 1) = (tick P (counter P n)).1 := rfl
      rw [hstep, ih]
      simp only [tick]
      by_cases hc : n % P = P - 1
      · rw [if_pos (show P < n % P + 1 + 1 by omega)]
        have h0 : (n + 1) % P = 0 := by
          rw [hmod, hc, show P - 1 + 1 = P by omega, Nat.mod_self]
        omega
      · rw [if_neg (show ¬ P < n % P + 1 + 1 by omega)]
        have h0 : (n + 1) % P = n % P + 1 := by
          rw [hmod]
          exact Nat.mod_eq_of_lt (by omega)
        omega

theorem emitted_iff (P : Nat) (hP : 2 ≤ P) (n : Nat) :
    emitted P n = true ↔ n % P = P - 2 := by
  have h : emitted P n = (counter P n + 1 == P) := rfl
  rw [h, counter_eq_mod P hP n, beq_iff_eq]
  have := Nat.mod_lt n (show 0 < P by omega)
  omega

end Interval

/-- For `P ≥ 2`, the successor's residue modulo `P`, split on whether a
wraparound occurs. -/
theorem succ_mod_split (P n : Nat) (hP : 2 ≤ P) :
    (n + 1) % P = if n % P = P - 1 then 0 else n % P + 1 := by
  have hlt : n % P < P := Nat.mod_lt n (by omega)
  have hmod : (n + 1) % P = (n % P + 1) % P := by
    conv_lhs => rw [Nat.add_mod]
    rw [Nat.mod_eq_of_lt (show 1 < P by omega)]
  rw [hmod]
  by_cases hc : n % P = P - 1
  · rw [if_pos hc, hc, show P - 1 + 1 = P by omega, Nat.mod_self]
  · rw [if_neg hc]
    exact Nat.mod_eq_of_lt (by omega)

/-- If adding `t < P` to a residue `a < P` leaves it unchanged modulo
`P`, then `t = 0`. -/
theorem mod_add_cancel_of_lt (P a t : Nat) (ha : a < P) (ht : t < P)
    (h : (a + t) % P = a) : t = 0 := by
  by_cases hcase : a + t < P
  · rw [Nat.mod_eq_of_lt hcase] at h
    omega
  · rw [Nat.mod_eq_sub_mod (by omega), Nat.mod_eq_of_lt (by omega)] at h
    omega

/-- Two numbers in a window of width `P` with the same residue modulo
`P` are equal. -/
theorem eq_of_mod_eq_of_window (P n1 n2 : Nat) (hP : 0 < P) (hle : n1 ≤ n2)
    (hub : n2 < n1 + P) (he : n1 % P = n2 % P) : n1 = n2 := by
  obtain ⟨t, rfl⟩ : ∃ t, n2 = n1 + t := ⟨n2 - n1, by omega⟩
  have ht : t < P := by omega
  have ha : n1 % P < P := Nat.mod_lt _ hP
  have he' : (n1 % P + t) % P = n1 % P := by
    conv_lhs => rw [← Nat.mod_eq_of_lt ht, ← Nat.add_mod]
    exact he.symm
  have := mod_add_cancel_of_lt P (n1 % P) t ha ht he'
  omega

/-- Every window of `P` consecutive naturals contains exactly one number
with residue `r` modulo `P`. -/
theorem mod_window_exists_unique (P r m : Nat) (hP : 0 < P) (hr : r < P) :
    ∃! n, (m ≤ n ∧ n < m + P) ∧ n % P = r := by
  have ha : m % P < P := Nat.mod_lt m hP
  have hd : (r + P - m % P) % P < P := Nat.mod_lt _ hP
  have hsum : m % P + (r + P - m % P) = r + P := by omega
  have h2 := Nat.add_mod (m % P) (r + P - m % P) P
  rw [hsum, Nat.mod_eq_of_lt ha] at h2
  have h4 : (r + P) % P = r := by
    rw [Nat.add_mod_right]
    exact Nat.mod_eq_of_lt hr
  have hres : (m + (r + P - m % P) % P) % P = r := by
    rw [Nat.add_mod, Nat.mod_eq_of_lt hd, ← h2]
    exact h4
  refine ⟨m + (r + P - m % P) % P, ⟨⟨by omega, by omega⟩, hres⟩, ?_⟩
  rintro y ⟨⟨hy1, hy2⟩, hy3⟩
  rcases Nat.le_total y (m + (r + P - m % P) % P) with hcase | hcase
  · exact eq_of_mod_eq_of_window P y _ hP hcase (by omega) (by rw [hy3, hres])
  · exact (eq_of_mod_eq_of_window P _ y hP hcase (by omega) (by rw [hres, hy3])).symm

/-- C4 (amended to periods `P ≥ 2`): the interval counter starts at 1,
stays in `[1, P]`, increments each tick and wraps to 1 after reaching
`P`; the `elapsed` event is emitted exactly on the tick whose resulting
counter value is `P`, the counter wraps to 1 on the following tick, and
every window of `P` consecutive ticks contains exactly one emission. -/
theorem interval_period_cycle (P : Nat) (hP : 2 ≤ P) :
    Interval.counter P 0 = 1 ∧
    (∀ n, 1 ≤ Interval.counter P n ∧ Interval.counter P n ≤ P) ∧
    (∀ n, Interval.counter P (n + 1) =
      if Interval.counter P n = P then 1 else Interval.counter P n + 1) ∧
    (∀ n, Interval.emitted P n = true ↔ Interval.counter P (n + 1) = P) ∧
    (∀ n, Interval.emitted P n = true → Interval.counter P (n + 2) = 1) ∧
    (∀ m, ∃! n, (m ≤ n ∧ n < m + P) ∧ Interval.emitted P n = true) := by
  refine ⟨rfl, ?_, ?_, ?_, ?_, ?_⟩
  · intro n
    rw [Interval.counter_eq_mod P hP]
    have := Nat.mod_lt n (show 0 < P by omega)
    omega
  · intro n
    rw [Interval.counter_eq_mod P hP, Interval.counter_eq_mod P hP,
      succ_mod_split P n hP]
    by_cases hc : n % P = P - 1
    · rw [if_pos hc, if_pos (by omega)]
    · rw [if_neg hc, if_neg (by omega)]
  · intro n
    rw [Interval.emitted_iff P hP n, Interval.counter_eq_mod P hP,
      succ_mod_split P n hP]
    by_cases hc : n % P = P - 1
    · rw [if_pos hc]
      have := Nat.mod_lt n (show 0 < P by omega)
      omega
    · rw [if_neg hc]
      have := Nat.mod_lt n (show 0 < P by omega)
      omega
  · intro n hn
    rw [Interval.emitted_iff P hP n] at hn
    rw [Interval.counter_eq_mod P hP]
    have h1 : (n + 1) % P = P - 1 := by
      rw [succ_mod_split P n hP, if_neg (by omega)]
      omega
    have h3 := succ_mod_split P (n + 1) hP
    rw [h1, if_pos rfl] at h3
    have h2 : (n + 2) % P = 0 := h3
    omega
  · intro m
    obtain ⟨n, ⟨hn1, hn2⟩, huniq⟩ :=
      mod_window_exists_unique P (P - 2) m (by omega) (by omega)
    refine ⟨n, ⟨hn1, (Interval.emitted_iff P hP n).mpr hn2⟩, ?_⟩
    intro y hy
    exact huniq y ⟨hy.1, (Interval.emitted_iff P hP y).mp hy.2⟩

/-- C4 witness: the cycle property for the concrete period `P = 3`. -/
theorem interval_period_cycle_witness :
    Interval.counter 3 0 = 1 ∧
    (∀ n, 1 ≤ Interval.counter 3 n ∧ Interval.counter 3 n ≤ 3) ∧
    (∀ n, Interval.counter 3 (n + 1) =
      if Interval.counter 3 n = 3 then 1 else Interval.counter 3 n + 1) ∧
    (∀ n, Interval.emitted 3 n = true ↔ Interval.counter 3 (n + 1) = 3) ∧
    (∀ n, Interval.emitted 3 n = true → Interval.counter 3 (n + 2) = 1) ∧
    (∀ m, ∃! n, (m ≤ n ∧ n < m + 3) ∧ Interval.emitted 3 n = true) :=
  interval_period_cycle 3 (by decide)

/-- C4 counterexample: with period `P = 1` — admissible, since the
configuration only requires a positive number of seconds — the
`elapsed` event never fires: after the increment the counter is always
2, never equal to 1, so the emit check fails on every tick (here shown
for the first five ticks, in particular the window of the first `P = 1`
consecutive seconds has no emission rather than exactly one). -/
theorem interval_period_one_never_fires :
    Interval.counter 1 0 = 1 ∧
    Interval.emitted 1 0 = false ∧ Interval.emitted 1 1 = false ∧
    Interval.emitted 1 2 = false ∧ Interval.emitted 1 3 = false ∧
    Interval.emitted 1 4 = false := by decide

/-- C5 (amended): on the tick in which the counter reaches the period,
the emitted event corresponds to the pre-wrap counter value `P`, and the
counter value published in that same tick is `P` itself — never the
wrapped value, because the wrap check `counter > P` is false when the
counter equals `P`; the wrap to 1 (and its publish) happens on the
following tick, which emits nothing. -/
theorem interval_emit_prewrap_publish (P n : Nat) (hP : 2 ≤ P)
    (h : Interval.emitted P n = true) :
    Interval.counter P (n + 1) = P ∧
    Interval.counter P (n + 1) ≠ 1 ∧
    Interval.emitted P (n + 1) = false ∧
    Interval.counter P (n + 2) = 1 := by
  have hn : n % P = P - 2 := (Interval.emitted_iff P hP n).mp h
  have h1 : (n + 1) % P = P - 1 := by
    rw [succ_mod_split P n hP, if_neg (by omega)]
    omega
  refine ⟨?_, ?_, ?_, ?_⟩
  · rw [Interval.counter_eq_mod P hP]
    omega
  · rw [Interval.counter_eq_mod P hP]
    omega
  · cases hE : Interval.emitted P (n + 1)
    · rfl
    · exact absurd ((Interval.emitted_iff P hP (n + 1)).mp hE) (by omega)
  · have h3 := succ_mod_split P (n + 1) hP
    rw [h1, if_pos rfl] at h3
    have h2 : (n + 2) % P = 0 := h3
    rw [Interval.counter_eq_mod P hP]
    omega

/-- C5 witness: period 3, emission on tick 2 (`n = 1`). -/
theorem interval_emit_prewrap_publish_witness :
    Interval.counter 3 (1 + 1) = 3 ∧
    Interval.counter 3 (1 + 1) ≠ 1 ∧
    Interval.emitted 3 (1 + 1) = false ∧
    Interval.counter 3 (1 + 2) = 1 :=
  interval_emit_prewrap_publish 3 1 (by decide) (by decide)

/-- C5 counterexample: for period 3, the tick that reaches the period
(tick 2, taking the counter from 2 to 3) emits the event, but the
counter value published in that same tick is 3 — the period, not the
wrapped value 1; the wrap to 1 is only published on the following
tick. -/
theorem interval_publish_not_wrapped_at_period :
    Interval.emitted 3 1 = true ∧ Interval.counter 3 2 = 3 ∧
    Interval.counter 3 2 ≠ 1 ∧ Interval.counter 3 3 = 1 ∧
    Interval.emitted 3 2 = false := by decide

namespace PrecisionTimer

/-- Before the deadline, a pending completion just counts down and emits
nothing. -/
theorem advance_pending (m k : Nat) (h : m < k) :
    advance m (some k) = (some (k - m), 0) := by
  induction m generalizing k with
  | zero => simp [advance]
  | succ m ih =>
      have hk : ¬ k ≤ 1 := by omega
      have hrec := ih (k - 1) (by omega)
      have heq : k - 1 - m = k - (m + 1) := by omega
      simp only [advance, step, hk, if_false, hrec, heq]

/-- A pending completion with `k ≥ 1` seconds left fires exactly once
within the next `k` seconds and then clears the handle. -/
theorem advance_fires (k : Nat) (h : 1 ≤ k) :
    advance k (some k) = (none, 1) := by
  induction k with
  | zero => omega
  | succ k ih =>
      by_cases hk : k = 0
      · subst hk
        simp [advance, step]
      · have hk1 : ¬ k + 1 ≤ 1 := by omega
        have hrec := ih (by omega)
        simp only [advance, step, hk1, if_false, Nat.add_sub_cancel, hrec]

/-- Once idle, time passing does nothing and emits nothing. -/
theorem advance_idle (n : Nat) : advance n none = (none, 0) := by
  induction n with
  | zero => rfl
  | succ n ih => simp [advance, step, ih]

end PrecisionTimer

/-- C6: for a precision timer configured with `S ≥ 1` seconds, `start()`
from idle schedules a completion; exactly one `elapsed` event is emitted
during the following `S` seconds (none strictly before second `S`), the
device publishes no properties at all (it has none), a `start()` while
the completion is pending is a no-op, and after firing the handle is
cleared so a further `start()` schedules a new completion. -/
theorem precision_single_fire (S : Nat) (hS : 1 ≤ S) :
    PrecisionTimer.start S none = some S ∧
    (∀ m, m < S → PrecisionTimer.advance m (some S) = (some (S - m), 0)) ∧
    PrecisionTimer.advance S (some S) = (none, 1) ∧
    (∀ k, PrecisionTimer.start S (some k) = some k) ∧
    PrecisionTimer.start S (PrecisionTimer.advance S (some S)).1 = some S := by
  refine ⟨rfl, ?_, PrecisionTimer.advance_fires S hS, fun k => rfl, ?_⟩
  · intro m hm
    exact PrecisionTimer.advance_pending m S hm
  · rw [PrecisionTimer.advance_fires S hS]
    rfl

/-- C6 witness: a 2-second precision timer. -/
theorem precision_single_fire_witness :
    PrecisionTimer.start 2 none = some 2 ∧
    (∀ m, m < 2 → PrecisionTimer.advance m (some 2) = (some (2 - m), 0)) ∧
    PrecisionTimer.advance 2 (some 2) = (none, 1) ∧
    (∀ k, PrecisionTimer.start 2 (some k) = some k) ∧
    PrecisionTimer.start 2 (PrecisionTimer.advance 2 (some 2)).1 = some 2 :=
  precision_single_fire 2 (by decide)

/-- C9: dispatching an action name with no registered callback does not
fail: the device state and publish trace are untouched, a warning is
recorded, and the action is still reported as started and finished to
the host — exactly as for the known action `start`. -/
theorem perform_unknown_action (name : String) (s : TimerState)
    (h : Timer.callbacks name = none) :
    Timer.performAction name s =
      (s, [], { started := true, finished := true, warned := true }) ∧
    (Timer.performAction name s).2.2.started =
      (Timer.performAction "start" s).2.2.started ∧
    (Timer.performAction name s).2.2.finished =
      (Timer.performAction "start" s).2.2.finished := by
  have hstart : Timer.callbacks "start" = some Timer.start := rfl
  refine ⟨?_, ?_, ?_⟩ <;> simp [Timer.performAction, h, hstart]

/-- C9 witness: the unknown action name `frobnicate` against a freshly
created timer. -/
theorem perform_unknown_action_witness :
    Timer.performAction "frobnicate" Timer.initState =
      (Timer.initState, [], { started := true, finished := true, warned := true }) ∧
    (Timer.performAction "frobnicate" Timer.initState).2.2.started =
      (Timer.performAction "start" Timer.initState).2.2.started ∧
    (Timer.performAction "frobnicate" Timer.initState).2.2.finished =
      (Timer.performAction "start" Timer.initState).2.2.finished :=
  perform_unknown_action "frobnicate" Timer.initState rfl

namespace TimerAdapter

theorem assignIds_suffix (l : List DeviceConfig) (supply : List String) :
    (assignIds l supply).2 <:+ supply := by
  induction l generalizing supply with
  | nil => exact List.suffix_refl supply
  | cons c cs ih =>
      by_cases hc : c.id = ""
      · simp only [assignIds, hc, if_pos rfl]
        exact (ih supply.tail).trans (List.tail_suffix supply)
      · simp only [assignIds, if_neg hc]
        exact ih supply

theorem assignIds_len (l : List DeviceConfig) (supply : List String)
    (h : blanks l ≤ supply.length) :
    (assignIds l supply).2.length = supply.length - blanks l := by
  induction l generalizing supply with
  | nil => simp [assignIds, blanks]
  | cons c cs ih =>
      by_cases hc : c.id = ""
      · have hb : blanks (c :: cs) = blanks cs + 1 := by
          simp [blanks, hc]
          omega
        have hlen : supply.tail.length = supply.length - 1 :=
          List.length_tail supply
        have hle : blanks cs ≤ supply.tail.length := by
          rw [hlen]
          omega
        have hstep : (assignIds (c :: cs) supply).2 = (assignIds cs supply.tail).2 := by
          simp [assignIds, hc]
        rw [hstep, ih supply.tail hle, hlen, hb]
        omega
      · have hb : blanks (c :: cs) = blanks cs := by
          simp [blanks, hc]
        have hstep : (assignIds (c :: cs) supply).2 = (assignIds cs supply).2 := by
          simp [assignIds, hc]
        rw [hstep, ih supply (by omega), hb]

theorem assignIds_append (l1 l2 : List DeviceConfig) (supply : List String) :
    assignIds (l1 ++ l2) supply =
      ((assignIds l1 supply).1 ++ (assignIds l2 (assignIds l1 supply).2).1,
       (assignIds l2 (assignIds l1 supply).2).2) := by
  induction l1 generalizing supply with
  | nil => simp [assignIds]
  | cons c cs ih =>
      by_cases hc : c.id = ""
      · simp [assignIds, hc, ih supply.tail]
      · simp [assignIds, hc, ih supply]

theorem blanks_append (l1 l2 : List DeviceConfig) :
    blanks (l1 ++ l2) = blanks l1 + blanks l2 := by
  induction l1 with
  | nil => simp [blanks]
  | cons c cs ih => simp [blanks, ih]; omega

theorem nonemptyIds_append (l1 l2 : List DeviceConfig) :
    nonemptyIds (l1 ++ l2) = nonemptyIds l1 ++ nonemptyIds l2 := by
  induction l1 with
  | nil => simp [nonemptyIds]
  | cons c cs ih =>
      by_cases hc : c.id = ""
      · simp [nonemptyIds, hc, ih]
      · simp [nonemptyIds, hc, ih]

theorem assignIds_of_no_blanks (l : List DeviceConfig) (supply : List String)
    (h : ∀ c ∈ l, c.id ≠ "") : assignIds l supply = (l, supply) := by
  induction l with
  | nil => rfl
  | cons c cs ih =>
      have hc : c.id ≠ "" := h c (by simp)
      simp [assignIds, hc, ih (fun d hd => h d (by simp [hd]))]

theorem assignIds_ne_empty (l : List DeviceConfig) (supply : List String)
    (hsup : ∀ x ∈ supply, x ≠ "") (hlen : blanks l ≤ supply.length) :
    ∀ c ∈ (assignIds l supply).1, c.id ≠ "" := by
  induction l generalizing supply with
  | nil => simp [assignIds]
  | cons c cs ih =>
      by_cases hc : c.id = ""
      · cases supply with
        | nil =>
            exfalso
            simp [blanks, hc] at hlen
        | cons s rest =>
            intro d hd
            simp only [assignIds, hc, if_pos rfl, List.headD_cons, List.tail_cons] at hd
            rcases List.mem_cons.mp hd with rfl | hmem
            · exact hsup s (by simp)
            · have hlen' : blanks cs ≤ rest.length := by
                simp [blanks, hc] at hlen
                omega
              exact ih rest (fun x hx => hsup x (by simp [hx])) hlen' d hmem
      · intro d hd
        simp only [assignIds, if_neg hc] at hd
        rcases List.mem_cons.mp hd with rfl | hmem
        · exact hc
        · have hlen' : blanks cs ≤ supply.length := by
            simp [blanks, hc] at hlen
            omega
          exact ih supply hsup hlen' d hmem

theorem ids_cons (c : DeviceConfig) (l : List DeviceConfig) :
    ids (c :: l) = c.id :: ids l := rfl

/-- Every identifier in the output of one `assignIds` pass either was a
non-empty identifier of the input, or was drawn from the supply — and a
drawn one is no longer in the remaining supply. -/
theorem assignIds_mem (l : List DeviceConfig) (supply : List String)
    (hnd : supply.Nodup) (hlen : blanks l ≤ supply.length) :
    ∀ x ∈ ids (assignIds l supply).1,
      x ∈ nonemptyIds l ∨ (x ∈ supply ∧ x ∉ (assignIds l supply).2) := by
  induction l generalizing supply with
  | nil => simp [assignIds, ids]
  | cons c cs ih =>
      by_cases hc : c.id = ""
      · cases supply with
        | nil =>
            exfalso
            simp [blanks, hc] at hlen
        | cons s rest =>
            have hlen' : blanks cs ≤ rest.length := by
              simp [blanks, hc] at hlen
              omega
            have hstep1 : (assignIds (c :: cs) (s :: rest)).1 =
                { c with id := s } :: (assignIds cs rest).1 := by
              simp [assignIds, hc]
            have hstep2 : (assignIds (c :: cs) (s :: rest)).2 =
                (assignIds cs rest).2 := by
              simp [assignIds, hc]
            have hne : nonemptyIds (c :: cs) = nonemptyIds cs := by
              simp [nonemptyIds, hc]
            intro x hx
            rw [hstep1, ids_cons] at hx
            rw [hne, hstep2]
            have hid : ({ c with id := s } : DeviceConfig).id = s := rfl
            rw [hid] at hx
            have hndr : rest.Nodup := (List.nodup_cons.mp hnd).2
            have hsr : s ∉ rest := (List.nodup_cons.mp hnd).1
            rcases List.mem_cons.mp hx with rfl | hmem
            · right
              refine ⟨List.mem_cons_self x rest, ?_⟩
              intro hin
              exact hsr ((assignIds_suffix cs rest).sublist.subset hin)
            · rcases ih rest hndr hlen' x hmem with hl | ⟨hr1, hr2⟩
              · exact Or.inl hl
              · exact Or.inr ⟨List.mem_cons_of_mem s hr1, hr2⟩
      · have hlen' : blanks cs ≤ supply.length := by
          simp [blanks, hc] at hlen
          omega
        have hstep1 : (assignIds (c :: cs) supply).1 =
            c :: (assignIds cs supply).1 := by
          simp [assignIds, hc]
        have hstep2 : (assignIds (c :: cs) supply).2 = (assignIds cs supply).2 := by
          simp [assignIds, hc]
        have hne : nonemptyIds (c :: cs) = c.id :: nonemptyIds cs := by
          simp [nonemptyIds, hc]
        intro x hx
        rw [hstep1, ids_cons] at hx
        rw [hne, hstep2]
        rcases List.mem_cons.mp hx with rfl | hmem
        · exact Or.inl (List.mem_cons_self _ _)
        · rcases ih supply hnd hlen' x hmem with hl | ⟨hr1, hr2⟩
          · exact Or.inl (List.mem_cons_of_mem _ hl)
          · exact Or.inr ⟨hr1, hr2⟩

/-- The identifiers of one `assignIds` pass are pairwise distinct,
provided the supply is distinct, does not collide with the pre-existing
identifiers, and the pre-existing identifiers are themselves distinct. -/
theorem assignIds_nodup (l : List DeviceConfig) (supply : List String)
    (hnd : supply.Nodup) (hids : (nonemptyIds l).Nodup)
    (hdisj : ∀ x ∈ supply, x ∉ nonemptyIds l)
    (hlen : blanks l ≤ supply.length) :
    (ids (assignIds l supply).1).Nodup := by
  induction l generalizing supply with
  | nil => simp [assignIds, ids]
  | cons c cs ih =>
      by_cases hc : c.id = ""
      · cases supply with
        | nil =>
            exfalso
            simp [blanks, hc] at hlen
        | cons s rest =>
            have hlen' : blanks cs ≤ rest.length := by
              simp [blanks, hc] at hlen
              omega
            have hstep1 : (assignIds (c :: cs) (s :: rest)).1 =
                { c with id := s } :: (assignIds cs rest).1 := by
              simp [assignIds, hc]
            have hne : nonemptyIds (c :: cs) = nonemptyIds cs := by
              simp [nonemptyIds, hc]
            rw [hstep1, ids_cons]
            have hid : ({ c with id := s } : DeviceConfig).id = s := rfl
            rw [hid]
            have hndr : rest.Nodup := (List.nodup_cons.mp hnd).2
            have hsr : s ∉ rest := (List.nodup_cons.mp hnd).1
            refine List.nodup_cons.mpr ⟨?_, ?_⟩
            · intro hsin
              rcases assignIds_mem cs rest hndr hlen' s hsin with hl | ⟨hr1, _⟩
              · exact hdisj s (List.mem_cons_self s rest) (by rw [hne]; exact hl)
              · exact hsr hr1
            · exact ih rest hndr (hne ▸ hids)
                (fun x hx hmem =>
                  hdisj x (List.mem_cons_of_mem s hx) (by rw [hne]; exact hmem))
                hlen'
      · have hlen' : blanks cs ≤ supply.length := by
          simp [blanks, hc] at hlen
          omega
        have hstep1 : (assignIds (c :: cs) supply).1 =
            c :: (assignIds cs supply).1 := by
          simp [assignIds, hc]
        have hne : nonemptyIds (c :: cs) = c.id :: nonemptyIds cs := by
          simp [nonemptyIds, hc]
        rw [hstep1, ids_cons]
        rw [hne] at hids hdisj
        have hids' := List.nodup_cons.mp hids
        refine List.nodup_cons.mpr ⟨?_, ?_⟩
        · intro hin
          rcases assignIds_mem cs supply hnd hlen' c.id hin with hl | ⟨hr1, _⟩
          · exact hids'.1 hl
          · exact hdisj c.id hr1 (List.mem_cons_self _ _)
        · exact ih supply hnd hids'.2
            (fun x hx hmem => hdisj x hx (List.mem_cons_of_mem _ hmem)) hlen'

/-- `load` on a configuration whose entries all carry identifiers
changes nothing (no blanks means no draws and no rewrites). -/
theorem load_of_no_blanks (config : AdapterConfig) (supply : List String)
    (h1 : ∀ c ∈ config.timers, c.id ≠ "")
    (h2 : ∀ c ∈ config.precisionTimers, c.id ≠ "")
    (h3 : ∀ c ∈ config.intervals, c.id ≠ "") :
    load config supply = config := by
  obtain ⟨t, p, i, b⟩ := config
  simp only at h1 h2 h3
  simp [load, assignIds_of_no_blanks t supply h1,
    assignIds_of_no_blanks p supply h2, assignIds_of_no_blanks i supply h3]

/-- The three sequential `assignIds` passes of `load` are one pass over
the concatenated configuration lists. -/
theorem load_allIds (config : AdapterConfig) (supply : List String) :
    allIds (load config supply) =
      ids (assignIds (config.timers ++ config.precisionTimers ++ config.intervals)
        supply).1 := by
  rw [assignIds_append, assignIds_append]
  simp [allIds, load, ids, List.map_append]

end TimerAdapter

/-- C7: loading a configuration in which some entries lack identifiers
(drawing fresh identifiers from a supply of distinct, non-empty strings
that collide neither with each other nor with the identifiers already
present) produces the persisted configuration in which every entry has a
non-empty identifier, all identifiers are pairwise distinct, and
re-loading the persisted configuration (with any further supply) leaves
every identifier — in particular every generated one — unchanged. -/
theorem load_assigns_unique_ids (config : AdapterConfig) (supply supply2 : List String)
    (hnd : supply.Nodup) (hne : ∀ x ∈ supply, x ≠ "")
    (hids : (TimerAdapter.allNonemptyIds config).Nodup)
    (hdisj : ∀ x ∈ supply, x ∉ TimerAdapter.allNonemptyIds config)
    (hlen : TimerAdapter.totalBlanks config ≤ supply.length) :
    (∀ x ∈ TimerAdapter.allIds (TimerAdapter.load config supply), x ≠ "") ∧
    (TimerAdapter.allIds (TimerAdapter.load config supply)).Nodup ∧
    TimerAdapter.load (TimerAdapter.load config supply) supply2 =
      TimerAdapter.load config supply := by
  have hallN : TimerAdapter.nonemptyIds
      (config.timers ++ config.precisionTimers ++ config.intervals) =
      TimerAdapter.allNonemptyIds config := by
    rw [TimerAdapter.nonemptyIds_append, TimerAdapter.nonemptyIds_append]
    rfl
  have hallB : TimerAdapter.blanks
      (config.timers ++ config.precisionTimers ++ config.intervals) =
      TimerAdapter.totalBlanks config := by
    rw [TimerAdapter.blanks_append, TimerAdapter.blanks_append]
    rfl
  have hsum : TimerAdapter.blanks config.timers +
      TimerAdapter.blanks config.precisionTimers +
      TimerAdapter.blanks config.intervals ≤ supply.length := hlen
  have hLids := TimerAdapter.load_allIds config supply
  have hbT : TimerAdapter.blanks config.timers ≤ supply.length := by omega
  have hsuf2 := TimerAdapter.assignIds_suffix config.timers supply
  have hlen2 := TimerAdapter.assignIds_len config.timers supply hbT
  have hne2 : ∀ x ∈ (TimerAdapter.assignIds config.timers supply).2, x ≠ "" :=
    fun x hx => hne x (hsuf2.sublist.subset hx)
  have hbP : TimerAdapter.blanks config.precisionTimers ≤
      (TimerAdapter.assignIds config.timers supply).2.length := by
    rw [hlen2]
    omega
  have hsuf3 := TimerAdapter.assignIds_suffix config.precisionTimers
    (TimerAdapter.assignIds config.timers supply).2
  have hlen3 := TimerAdapter.assignIds_len config.precisionTimers
    (TimerAdapter.assignIds config.timers supply).2 hbP
  have hne3 : ∀ x ∈ (TimerAdapter.assignIds config.precisionTimers
      (TimerAdapter.assignIds config.timers supply).2).2, x ≠ "" :=
    fun x hx => hne2 x (hsuf3.sublist.subset hx)
  have hbI : TimerAdapter.blanks config.intervals ≤
      (TimerAdapter.assignIds config.precisionTimers
        (TimerAdapter.assignIds config.timers supply).2).2.length := by
    rw [hlen3, hlen2]
    omega
  refine ⟨?_, ?_, ?_⟩
  · intro x hx
    rw [hLids] at hx
    simp only [TimerAdapter.ids, List.mem_map] at hx
    obtain ⟨c, hcmem, rfl⟩ := hx
    exact TimerAdapter.assignIds_ne_empty _ supply hne (by rw [hallB]; exact hlen)
      c hcmem
  · rw [hLids]
    exact TimerAdapter.assignIds_nodup _ supply hnd (by rw [hallN]; exact hids)
      (fun x hx => by rw [hallN]; exact hdisj x hx) (by rw [hallB]; exact hlen)
  · apply TimerAdapter.load_of_no_blanks
    · exact TimerAdapter.assignIds_ne_empty config.timers supply hne hbT
    · exact TimerAdapter.assignIds_ne_empty config.precisionTimers
        (TimerAdapter.assignIds config.timers supply).2 hne2 hbP
    · exact TimerAdapter.assignIds_ne_empty config.intervals
        (TimerAdapter.assignIds config.precisionTimers
          (TimerAdapter.assignIds config.timers supply).2).2 hne3 hbI

/-- C7 witness: a configuration with a blank-id timer, an already-named
precision timer and a blank-id interval, loaded with the fresh supply
`["aa", "bb"]` and re-loaded with `["cc"]`. -/
theorem load_assigns_unique_ids_witness :
    (∀ x ∈ TimerAdapter.allIds (TimerAdapter.load
      ⟨[⟨"", "Tea", 3⟩], [⟨"p1", "Egg", 2⟩], [⟨"", "Pulse", 4⟩], false⟩
      ["aa", "bb"]), x ≠ "") ∧
    (TimerAdapter.allIds (TimerAdapter.load
      ⟨[⟨"", "Tea", 3⟩], [⟨"p1", "Egg", 2⟩], [⟨"", "Pulse", 4⟩], false⟩
      ["aa", "bb"])).Nodup ∧
    TimerAdapter.load (TimerAdapter.load
      ⟨[⟨"", "Tea", 3⟩], [⟨"p1", "Egg", 2⟩], [⟨"", "Pulse", 4⟩], false⟩
      ["aa", "bb"]) ["cc"] =
      TimerAdapter.load
        ⟨[⟨"", "Tea", 3⟩], [⟨"p1", "Egg", 2⟩], [⟨"", "Pulse", 4⟩], false⟩
        ["aa", "bb"] :=
  load_assigns_unique_ids
    ⟨[⟨"", "Tea", 3⟩], [⟨"p1", "Egg", 2⟩], [⟨"", "Pulse", 4⟩], false⟩
    ["aa", "bb"] ["cc"] (by decide) (by decide) (by decide) (by decide) (by decide)
